import Mathlib

/-!
Shallow embedding of the WebRTC mesh orchestration embedded in
`src/pages/StudyRoom.tsx`.

The embedding models, straight from the source:
* the signaling envelope inserted into the `webrtc_signals` table
  (`sendSignal`),
* the engine-level `RTCPeerConnection` object, restricted to what the
  code observes: signaling state, local/remote description, and the list
  of remote ICE candidates that were actually applied via
  `addIceCandidate`.  Description-setting follows the W3C signaling-state
  machine of the browser engine: `setRemoteDescription`/
  `setLocalDescription` reject (return `none`) in states the standard
  forbids, which the code's `try`/`catch` turns into a logged error,
* the per-room mutable state: the `peerConnectionsRef` map keyed by
  participant user id, the `remoteVideosRef` keys, the local stream and
  its tracks, the audio/video toggle flags, and the envelopes that were
  successfully inserted by `sendSignal`,
* the handlers `createPeerConnection`, `handleOffer`, `handleAnswer`,
  `handleIceCandidate`, `closePeerConnection`, `cleanup`,
  `handleToggleAudio`, `handleToggleVideo`, the participants-effect
  (`reconcile`), and the retry scheduled by `pc.onconnectionstatechange`.

Because closed `RTCPeerConnection` objects and stopped tracks outlive
their removal from the map/stream, the state carries observation lists
`closedConnectionIds` and `releasedTracks` recording exactly the
`pc.close()` and `track.stop()` calls the code performs.  Console logging
is modelled by a `logs` list with one constructor per logging site used
by the claims.
-/

namespace StudyRoom

/-- `signal_type` column values of the `webrtc_signals` table. -/
inductive SignalKind where
  | offer
  | answer
  | iceCandidate
deriving DecidableEq

/-- One row inserted into `webrtc_signals`: sender, recipient, kind and an
abstract uninterpreted payload (SDP blob or ICE candidate). -/
structure SignalEnvelope where
  fromUserId : String
  toUserId : String
  signalType : SignalKind
  payload : Nat
deriving DecidableEq

/-- SDP description type. -/
inductive SdpType where
  | offer
  | answer
deriving DecidableEq

/-- A session description: its type and an abstract payload. -/
structure SessionDescription where
  sdpType : SdpType
  payload : Nat
deriving DecidableEq

/-- W3C signaling states reachable by this code. -/
inductive SignalingState where
  | stable
  | haveLocalOffer
  | haveRemoteOffer
deriving DecidableEq

/-- The engine-level peer connection object (`RTCPeerConnection`),
restricted to the parts the code observes. -/
structure RTCPeer where
  signalingState : SignalingState
  localDescription : Option SessionDescription
  remoteDescription : Option SessionDescription
  appliedCandidates : List Nat
deriving DecidableEq

/-- A freshly constructed `new RTCPeerConnection(rtcConfiguration)`. -/
def freshRTCPeer : RTCPeer :=
  { signalingState := .stable
    localDescription := none
    remoteDescription := none
    appliedCandidates := [] }

/-- `pc.setRemoteDescription(d)`: succeeds exactly in the signaling states
the W3C state machine allows for the description type; otherwise it
rejects (`none`), which the calling code catches and logs. -/
def RTCPeer.setRemoteDescription (pc : RTCPeer) (d : SessionDescription) :
    Option RTCPeer :=
  match d.sdpType, pc.signalingState with
  | .offer, .stable =>
      some { pc with remoteDescription := some d, signalingState := .haveRemoteOffer }
  | .offer, .haveRemoteOffer =>
      some { pc with remoteDescription := some d, signalingState := .haveRemoteOffer }
  | .answer, .haveLocalOffer =>
      some { pc with remoteDescription := some d, signalingState := .stable }
  | _, _ => none

/-- `pc.setLocalDescription(d)`, under the same W3C state machine. -/
def RTCPeer.setLocalDescription (pc : RTCPeer) (d : SessionDescription) :
    Option RTCPeer :=
  match d.sdpType, pc.signalingState with
  | .offer, .stable =>
      some { pc with localDescription := some d, signalingState := .haveLocalOffer }
  | .offer, .haveLocalOffer =>
      some { pc with localDescription := some d, signalingState := .haveLocalOffer }
  | .answer, .haveRemoteOffer =>
      some { pc with localDescription := some d, signalingState := .stable }
  | _, _ => none

/-- `pc.createAnswer()`: only valid with a pending remote offer. -/
def RTCPeer.createAnswer (pc : RTCPeer) : Option SessionDescription :=
  if pc.signalingState = .haveRemoteOffer then some ⟨.answer, 0⟩ else none

/-- `pc.addIceCandidate(c)`: appends to the applied-candidate list. -/
def RTCPeer.addIceCandidate (pc : RTCPeer) (c : Nat) : RTCPeer :=
  { pc with appliedCandidates := pc.appliedCandidates ++ [c] }

/-- A local media track: its `enabled` flag and whether `stop()` ran. -/
structure Track where
  enabled : Bool
  stopped : Bool
deriving DecidableEq

/-- The local capture stream with its audio and video track lists. -/
structure LocalStream where
  audioTracks : List Track
  videoTracks : List Track
deriving DecidableEq

/-- `stream.getTracks()`. -/
def LocalStream.getTracks (ls : LocalStream) : List Track :=
  ls.audioTracks ++ ls.videoTracks

/-- `track.stop()`. -/
def Track.stop (t : Track) : Track := { t with stopped := true }

/-- The value stored in `peerConnectionsRef` for one participant
(interface `PeerConnection` in the source). -/
structure PeerConn where
  peerConnection : RTCPeer
  stream : Option Nat
deriving DecidableEq

/-- A row of the `room_participants` fetch (interface `Participant`). -/
structure Participant where
  id : String
  username : String
  user_id : String
  is_active : Bool
deriving DecidableEq

/-- Console logging sites used by the claims. -/
inductive LogEntry where
  | handlingOffer (fromUserId : String)
  | handlingAnswer (fromUserId : String)
  | handlingIceCandidate (fromUserId : String)
  | sendSignalError
  | offerHandlingError
  | answerHandlingError
deriving DecidableEq

/-- The mutable state of one mounted `StudyRoom` component. -/
structure RoomState where
  selfId : String
  localStream : Option LocalStream
  peerConnections : List (String × PeerConn)
  remoteVideoIds : List String
  closedConnectionIds : List String
  releasedTracks : List Track
  sentSignals : List SignalEnvelope
  logs : List LogEntry
  isAudioOn : Bool
  isVideoOn : Bool
  transportOk : Bool
deriving DecidableEq

/-- `peerConnectionsRef.current.get(k)`. -/
def lookupConn (m : List (String × PeerConn)) (k : String) : Option PeerConn :=
  match m with
  | [] => none
  | (k', v) :: rest => if k' = k then some v else lookupConn rest k

/-- `peerConnectionsRef.current.set(k, v)`: replace in place if the key is
present (a JS `Map` keeps insertion order), append otherwise. -/
def setConn (m : List (String × PeerConn)) (k : String) (v : PeerConn) :
    List (String × PeerConn) :=
  match m with
  | [] => [(k, v)]
  | (k', v') :: rest => if k' = k then (k', v) :: rest else (k', v') :: setConn rest k v

/-- `peerConnectionsRef.current.delete(k)`. -/
def eraseConn (m : List (String × PeerConn)) (k : String) :
    List (String × PeerConn) :=
  match m with
  | [] => []
  | (k', v') :: rest => if k' = k then eraseConn rest k else (k', v') :: eraseConn rest k

/-- Keys of the connection map, in insertion order. -/
def connKeys (m : List (String × PeerConn)) : List String := m.map Prod.fst

/-- Append one console entry. -/
def appendLog (st : RoomState) (e : LogEntry) : RoomState :=
  { st with logs := st.logs ++ [e] }

/-- `sendSignal(toUserId, signalType, signalData)`: inserts one row into
`webrtc_signals` inside a `try`; a transport error is caught and logged
and the envelope is gone — nothing stores or resends it. -/
def sendSignal (toUserId : String) (signalType : SignalKind) (signalData : Nat)
    (st : RoomState) : RoomState :=
  if st.transportOk then
    { st with sentSignals :=
        st.sentSignals ++ [⟨st.selfId, toUserId, signalType, signalData⟩] }
  else
    appendLog st .sendSignalError

/-- `createPeerConnection(participantUserId, participantUsername)`: bail
out without a local stream; otherwise create a fresh engine connection,
add the local tracks, store it in the map, then unconditionally create an
offer, set it locally, and send it — there is no initiator tie-break. -/
def createPeerConnection (participantUserId username : String)
    (st : RoomState) : RoomState :=
  if st.localStream.isNone then st else
  match freshRTCPeer.setLocalDescription ⟨.offer, 0⟩ with
  | none => st
  | some pc =>
    let conn : PeerConn := ⟨pc, none⟩
    let st1 := { st with
      peerConnections := setConn st.peerConnections participantUserId conn }
    sendSignal participantUserId .offer 0 st1

/-- `handleOffer(fromUserId, offer)`: bail out without a local stream;
create-and-store a fresh connection when the sender has none; then apply
the remote offer, create and set a local answer, and send it.  Every
engine rejection is caught and logged, keeping whatever mutations already
happened. -/
def handleOffer (fromUserId : String) (offerPayload : Nat) (st : RoomState) :
    RoomState :=
  if st.localStream.isNone then st else
  let st1 := appendLog st (.handlingOffer fromUserId)
  let entry :=
    match lookupConn st1.peerConnections fromUserId with
    | some c => (st1, c)
    | none =>
      let c : PeerConn := ⟨freshRTCPeer, none⟩
      ({ st1 with peerConnections := setConn st1.peerConnections fromUserId c }, c)
  let st2 := entry.1
  let conn := entry.2
  match conn.peerConnection.setRemoteDescription ⟨.offer, offerPayload⟩ with
  | none => appendLog st2 .offerHandlingError
  | some pc1 =>
    let st3 := { st2 with
      peerConnections := setConn st2.peerConnections fromUserId ⟨pc1, conn.stream⟩ }
    match pc1.createAnswer with
    | none => appendLog st3 .offerHandlingError
    | some ans =>
      match pc1.setLocalDescription ans with
      | none => appendLog st3 .offerHandlingError
      | some pc2 =>
        let st4 := { st3 with
          peerConnections := setConn st3.peerConnections fromUserId ⟨pc2, conn.stream⟩ }
        sendSignal fromUserId .answer ans.payload st4

/-- `handleAnswer(fromUserId, answer)`: apply the remote answer if a
connection exists; unknown senders fall through silently. -/
def handleAnswer (fromUserId : String) (answerPayload : Nat) (st : RoomState) :
    RoomState :=
  let st1 := appendLog st (.handlingAnswer fromUserId)
  match lookupConn st1.peerConnections fromUserId with
  | none => st1
  | some conn =>
    match conn.peerConnection.setRemoteDescription ⟨.answer, answerPayload⟩ with
    | none => appendLog st1 .answerHandlingError
    | some pc1 =>
      { st1 with
        peerConnections := setConn st1.peerConnections fromUserId ⟨pc1, conn.stream⟩ }

/-- `handleIceCandidate(fromUserId, candidate)`: apply the candidate only
when a connection exists and its remote description is already set; in
every other case the candidate is simply dropped — the code keeps no
pending-candidate queue. -/
def handleIceCandidate (fromUserId : String) (candidate : Nat)
    (st : RoomState) : RoomState :=
  let st1 := appendLog st (.handlingIceCandidate fromUserId)
  match lookupConn st1.peerConnections fromUserId with
  | none => st1
  | some conn =>
    if conn.peerConnection.remoteDescription.isSome then
      { st1 with
        peerConnections := setConn st1.peerConnections fromUserId
          ⟨conn.peerConnection.addIceCandidate candidate, conn.stream⟩ }
    else st1

/-- `closePeerConnection(userId)`: when tracked, close the engine
connection, delete the map entry and the remote-video reference; no-op
otherwise. -/
def closePeerConnection (userId : String) (st : RoomState) : RoomState :=
  match lookupConn st.peerConnections userId with
  | none => st
  | some _ =>
    { st with
      peerConnections := eraseConn st.peerConnections userId
      closedConnectionIds := st.closedConnectionIds ++ [userId]
      remoteVideoIds := st.remoteVideoIds.filter (fun v => v ≠ userId) }

/-- Tracks of an optional stream (empty when the stream is gone). -/
def streamTracks : Option LocalStream → List Track
  | none => []
  | some ls => ls.getTracks

/-- `cleanup()`: stop every local track and drop the stream, close every
tracked connection and clear the map.  (It also removes the signaling
channel and clears the init flag, which this state does not carry.) -/
def cleanup (st : RoomState) : RoomState :=
  { st with
    localStream := none
    releasedTracks := st.releasedTracks ++ (streamTracks st.localStream).map Track.stop
    peerConnections := []
    closedConnectionIds := st.closedConnectionIds ++ connKeys st.peerConnections }

/-- `handleToggleAudio()`: flip the first audio track's `enabled` to the
negation of the `isAudioOn` flag, then flip the flag. -/
def handleToggleAudio (st : RoomState) : RoomState :=
  match st.localStream with
  | none => st
  | some ls =>
    match ls.audioTracks with
    | [] => st
    | t :: rest =>
      { st with
        localStream := some { ls with audioTracks := { t with enabled := !st.isAudioOn } :: rest }
        isAudioOn := !st.isAudioOn }

/-- `handleToggleVideo()`: the video analogue of `handleToggleAudio`. -/
def handleToggleVideo (st : RoomState) : RoomState :=
  match st.localStream with
  | none => st
  | some ls =>
    match ls.videoTracks with
    | [] => st
    | t :: rest =>
      { st with
        localStream := some { ls with videoTracks := { t with enabled := !st.isVideoOn } :: rest }
        isVideoOn := !st.isVideoOn }

/-- Creation half of the participants effect: for each fetched participant
that is not self and has no tracked connection, `createPeerConnection`. -/
def reconcileCreate (parts : List Participant) (st : RoomState) : RoomState :=
  parts.foldl
    (fun s p =>
      if p.user_id ≠ s.selfId ∧ lookupConn s.peerConnections p.user_id = none then
        createPeerConnection p.user_id p.username s
      else s)
    st

/-- Removal half of the participants effect: close every tracked
connection whose key is neither self nor a current participant. -/
def reconcileRemove (parts : List Participant) (st : RoomState) : RoomState :=
  let participantIds := parts.map (fun p => p.user_id)
  (connKeys st.peerConnections).foldl
    (fun s k =>
      if k ≠ s.selfId ∧ k ∉ participantIds then closePeerConnection k s else s)
    st

/-- The removal fold of `reconcileRemove`, abstracted over the iterated
key list (used to reason about `reconcileRemove` by induction). -/
def closeAbsent (ids : List String) (L : List String) (st : RoomState) :
    RoomState :=
  L.foldl
    (fun s k =>
      if k ≠ s.selfId ∧ k ∉ ids then closePeerConnection k s else s)
    st

/-- The `useEffect` on `[participants, user]`: guard on initialization and
local stream, then create connections for new non-self participants and
remove connections for departed ones. -/
def reconcile (parts : List Participant) (st : RoomState) : RoomState :=
  if st.localStream.isNone then st
  else reconcileRemove parts (reconcileCreate parts st)

/-- Fold a sequence of membership deltas through `reconcile`. -/
def runReconciles (st : RoomState) (deltas : List (List Participant)) :
    RoomState :=
  deltas.foldl (fun s d => reconcile d s) st

/-- `RTCPeerConnection.connectionState` values. -/
inductive PeerConnectionState where
  | newConn
  | connecting
  | connected
  | disconnected
  | failed
  | closedConn
deriving DecidableEq

/-- The retry delay `pc.onconnectionstatechange` passes to `setTimeout`:
a literal 2000 ms on `failed` or `disconnected`, nothing otherwise. -/
def retryDelayMsOnStateChange (s : PeerConnectionState) : Option Nat :=
  if s = .failed ∨ s = .disconnected then some 2000 else none

/-- Delay of the retry scheduled after the n-th consecutive failure: the
handler passes the literal 2000 to `setTimeout` every time, with no
attempt counter anywhere in the component. -/
def retryDelayMs : Nat → Nat := fun _ => 2000

/-- Body of the scheduled retry: if the participant is still tracked when
the timer fires, close the connection and create a fresh one. -/
def retryFire (participantUserId username : String) (st : RoomState) :
    RoomState :=
  if (lookupConn st.peerConnections participantUserId).isSome then
    createPeerConnection participantUserId username
      (closePeerConnection participantUserId st)
  else st

/-- Component state right after a successful `initializeLocalStream` and
`setupSignalingChannel`: one enabled audio and video track, empty map. -/
def initialRoomState (selfId : String) : RoomState :=
  { selfId := selfId
    localStream := some ⟨[⟨true, false⟩], [⟨true, false⟩]⟩
    peerConnections := []
    remoteVideoIds := []
    closedConnectionIds := []
    releasedTracks := []
    sentSignals := []
    logs := []
    isAudioOn := true
    isVideoOn := true
    transportOk := true }

/-- The connection value `createPeerConnection` stores: a fresh engine
connection holding its own local offer. -/
def offeredConn : PeerConn :=
  ⟨{ signalingState := .haveLocalOffer
     localDescription := some ⟨.offer, 0⟩
     remoteDescription := none
     appliedCandidates := [] }, none⟩

/-! ## Shared concrete states -/

/-- State of participant `"a"` right after creating (and offering on) a
connection to `"b"`. -/
def stOfferedToB : RoomState :=
  createPeerConnection "b" "bob" (initialRoomState "a")

/-- The initial state of `"a"` with the transport failing. -/
def stNoTransport : RoomState :=
  { initialRoomState "a" with transportOk := false }

/-- `stOfferedToB` after an ICE candidate from `"b"` arrived before any
remote description was set. -/
def stIceEarly : RoomState := handleIceCandidate "b" 42 stOfferedToB

/-- `stIceEarly` after `"b"`'s answer was applied (remote description now
set). -/
def stIceAfterAnswer : RoomState := handleAnswer "b" 7 stIceEarly

/-- Glare at `"a"`: `"a"` has its own offer out to `"b"` and an offer
from `"b"` arrives. -/
def stGlareA : RoomState := handleOffer "b" 5 stOfferedToB

/-- `stOfferedToB` after `closePeerConnection("b")`. -/
def stClosedB : RoomState := closePeerConnection "b" stOfferedToB

/-- `stClosedB` after an offer from the removed participant `"b"`
arrives. -/
def stReopenedB : RoomState := handleOffer "b" 5 stClosedB

/-! ## Association-map lemmas -/

theorem connKeys_nil : connKeys [] = [] := rfl

theorem connKeys_cons (a : String) (b : PeerConn)
    (rest : List (String × PeerConn)) :
    connKeys ((a, b) :: rest) = a :: connKeys rest := rfl

theorem lookupConn_setConn (m : List (String × PeerConn)) (k q : String)
    (v : PeerConn) :
    lookupConn (setConn m k v) q = if k = q then some v else lookupConn m q := by
  induction m with
  | nil => simp [setConn, lookupConn]
  | cons e rest ih =>
    obtain ⟨a, b⟩ := e
    by_cases hak : a = k
    · subst hak
      simp only [setConn, if_pos rfl, lookupConn]
      by_cases haq : a = q <;> simp [haq]
    · simp only [setConn, if_neg hak, lookupConn, ih]
      by_cases haq : a = q
      · subst haq
        have hka : ¬ k = a := fun h => hak h.symm
        simp [hka]
      · simp [haq]

theorem lookupConn_eraseConn (m : List (String × PeerConn)) (k q : String) :
    lookupConn (eraseConn m k) q = if k = q then none else lookupConn m q := by
  induction m with
  | nil => simp [eraseConn, lookupConn]
  | cons e rest ih =>
    obtain ⟨a, b⟩ := e
    by_cases hak : a = k
    · subst hak
      rw [eraseConn, if_pos rfl, ih]
      by_cases haq : a = q
      · subst haq; simp [lookupConn]
      · simp [haq, lookupConn, haq]
    · rw [eraseConn, if_neg hak]
      by_cases haq : a = q
      · subst haq
        have hka : ¬ k = a := fun h => hak h.symm
        simp [lookupConn, ih, hka]
      · simp [lookupConn, haq, ih]

theorem mem_connKeys_iff (m : List (String × PeerConn)) (q : String) :
    q ∈ connKeys m ↔ (lookupConn m q).isSome = true := by
  induction m with
  | nil => simp [connKeys, lookupConn]
  | cons e rest ih =>
    obtain ⟨a, b⟩ := e
    rw [connKeys_cons, List.mem_cons]
    by_cases haq : a = q
    · subst haq; simp [lookupConn]
    · have hqa : ¬ q = a := fun h => haq h.symm
      simp [lookupConn, haq, hqa, ih]

theorem connKeys_setConn (m : List (String × PeerConn)) (k : String)
    (v : PeerConn) :
    connKeys (setConn m k v) =
      if (lookupConn m k).isSome = true then connKeys m else connKeys m ++ [k] := by
  induction m with
  | nil => simp [setConn, connKeys, lookupConn]
  | cons e rest ih =>
    obtain ⟨a, b⟩ := e
    by_cases hak : a = k
    · subst hak
      simp [setConn, connKeys_cons, lookupConn]
    · rw [setConn, if_neg hak, connKeys_cons, connKeys_cons, lookupConn,
        if_neg hak, ih]
      by_cases h : (lookupConn rest k).isSome = true <;> simp [h]

theorem connKeys_eraseConn_sublist (m : List (String × PeerConn)) (k : String) :
    List.Sublist (connKeys (eraseConn m k)) (connKeys m) := by
  induction m with
  | nil => simp [eraseConn, connKeys]
  | cons e rest ih =>
    obtain ⟨a, b⟩ := e
    by_cases hak : a = k
    · subst hak
      rw [eraseConn, if_pos rfl, connKeys_cons]
      exact ih.trans (List.sublist_cons_self _ _)
    · rw [eraseConn, if_neg hak, connKeys_cons, connKeys_cons]
      exact ih.cons₂ a

theorem lookupConn_closePeerConnection (k q : String) (st : RoomState) :
    lookupConn (closePeerConnection k st).peerConnections q =
      if k = q then none else lookupConn st.peerConnections q := by
  unfold closePeerConnection
  cases h : lookupConn st.peerConnections k with
  | none =>
    by_cases hkq : k = q
    · subst hkq; simp [h]
    · simp [hkq]
  | some c => simp [lookupConn_eraseConn]

/-! ## C7 — best-effort send -/

/-- C7: when the transport errors, `sendSignal` only logs the error: the
resulting state is exactly the input state with one error log appended, so
the envelope is not stored anywhere, not acknowledged and not resent, and
the function is total (no exception escapes to the caller). -/
theorem sendSignal_best_effort_on_error (toUserId : String) (k : SignalKind)
    (d : Nat) (st : RoomState) (h : st.transportOk = false) :
    sendSignal toUserId k d st = appendLog st .sendSignalError ∧
    (sendSignal toUserId k d st).sentSignals = st.sentSignals := by
  constructor
  · simp [sendSignal, h]
  · simp [sendSignal, h, appendLog]

/-- Witness for C7 at a concrete failing-transport state. -/
theorem sendSignal_best_effort_on_error_witness :
    sendSignal "b" .offer 0 stNoTransport = appendLog stNoTransport .sendSignalError ∧
    (sendSignal "b" .offer 0 stNoTransport).sentSignals = stNoTransport.sentSignals :=
  sendSignal_best_effort_on_error "b" .offer 0 stNoTransport rfl

/-! ## C8 — removeConnection idempotent -/

/-- C8: `closePeerConnection` on an untracked id leaves the whole state
(including the connection map and every tracked connection) unchanged, and
running it twice with the same id equals running it once. -/
theorem closePeerConnection_idempotent (userId : String) (st : RoomState) :
    (lookupConn st.peerConnections userId = none →
      closePeerConnection userId st = st) ∧
    closePeerConnection userId (closePeerConnection userId st) =
      closePeerConnection userId st := by
  have noop : ∀ s : RoomState, lookupConn s.peerConnections userId = none →
      closePeerConnection userId s = s := by
    intro s h
    simp [closePeerConnection, h]
  refine ⟨noop st, ?_⟩
  have h2 : lookupConn (closePeerConnection userId st).peerConnections userId = none := by
    rw [lookupConn_closePeerConnection]
    simp
  exact noop _ h2

/-- Witness for C8 at a concrete state with an empty connection map. -/
theorem closePeerConnection_idempotent_witness :
    closePeerConnection "x" (initialRoomState "a") = initialRoomState "a" ∧
    closePeerConnection "b" (closePeerConnection "b" stOfferedToB) =
      closePeerConnection "b" stOfferedToB :=
  ⟨(closePeerConnection_idempotent "x" (initialRoomState "a")).1 rfl,
   (closePeerConnection_idempotent "b" stOfferedToB).2⟩

/-! ## C9 — session stop -/

/-- C9: `cleanup` empties the connection map, records a `pc.close()` for
every tracked connection, drops the local stream, and every released local
track is stopped. -/
theorem cleanup_closes_all_and_releases_media (st : RoomState) :
    (cleanup st).peerConnections = [] ∧
    (cleanup st).localStream = none ∧
    (cleanup st).closedConnectionIds =
      st.closedConnectionIds ++ connKeys st.peerConnections ∧
    (cleanup st).releasedTracks =
      st.releasedTracks ++ (streamTracks st.localStream).map Track.stop ∧
    ((streamTracks st.localStream).map Track.stop).all (fun t => t.stopped) = true := by
  refine ⟨rfl, rfl, rfl, rfl, ?_⟩
  simp [List.all_eq_true, Track.stop]

/-! ## C6 — media toggles -/

/-- C6: toggling audio or video sends no signaling envelope and leaves
every peer connection untouched; when the track's `enabled` flag agrees
with the UI flag (as maintained by the component), the toggle flips
exactly that flag. -/
theorem toggles_flip_enabled_without_signaling (st : RoomState) :
    (handleToggleAudio st).sentSignals = st.sentSignals ∧
    (handleToggleAudio st).peerConnections = st.peerConnections ∧
    (handleToggleVideo st).sentSignals = st.sentSignals ∧
    (handleToggleVideo st).peerConnections = st.peerConnections ∧
    (∀ ls t rest, st.localStream = some ls → ls.audioTracks = t :: rest →
      t.enabled = st.isAudioOn →
      (handleToggleAudio st).localStream =
        some { ls with audioTracks := { t with enabled := !t.enabled } :: rest } ∧
      (handleToggleAudio st).isAudioOn = !st.isAudioOn) ∧
    (∀ ls t rest, st.localStream = some ls → ls.videoTracks = t :: rest →
      t.enabled = st.isVideoOn →
      (handleToggleVideo st).localStream =
        some { ls with videoTracks := { t with enabled := !t.enabled } :: rest } ∧
      (handleToggleVideo st).isVideoOn = !st.isVideoOn) := by
  refine ⟨?_, ?_, ?_, ?_, ?_, ?_⟩
  · rcases hls : st.localStream with _ | ls
    · simp [handleToggleAudio, hls]
    · rcases hts : ls.audioTracks with _ | ⟨t, rest⟩ <;>
        simp [handleToggleAudio, hls, hts]
  · rcases hls : st.localStream with _ | ls
    · simp [handleToggleAudio, hls]
    · rcases hts : ls.audioTracks with _ | ⟨t, rest⟩ <;>
        simp [handleToggleAudio, hls, hts]
  · rcases hls : st.localStream with _ | ls
    · simp [handleToggleVideo, hls]
    · rcases hts : ls.videoTracks with _ | ⟨t, rest⟩ <;>
        simp [handleToggleVideo, hls, hts]
  · rcases hls : st.localStream with _ | ls
    · simp [handleToggleVideo, hls]
    · rcases hts : ls.videoTracks with _ | ⟨t, rest⟩ <;>
        simp [handleToggleVideo, hls, hts]
  · intro ls t rest h1 h2 h3
    constructor
    · simp [handleToggleAudio, h1, h2, h3]
    · simp [handleToggleAudio, h1, h2]
  · intro ls t rest h1 h2 h3
    constructor
    · simp [handleToggleVideo, h1, h2, h3]
    · simp [handleToggleVideo, h1, h2]

/-- Witness for C6: toggling audio in the initial state flips the audio
track off and keeps the video track as it was. -/
theorem toggles_flip_enabled_without_signaling_witness :
    (handleToggleAudio (initialRoomState "a")).localStream =
      some ⟨[⟨false, false⟩], [⟨true, false⟩]⟩ ∧
    (handleToggleAudio (initialRoomState "a")).isAudioOn = false := by
  have h := (toggles_flip_enabled_without_signaling (initialRoomState "a")).2.2.2.2.1
    ⟨[⟨true, false⟩], [⟨true, false⟩]⟩ ⟨true, false⟩ [] rfl rfl rfl
  simpa using h

/-! ## C3 — reconnection backoff (corrected) -/

/-- Counterexample for C3: the retry delay the code passes to `setTimeout`
is the constant 2000 ms, so it matches no strictly-increasing-then-capped
schedule `min(maxBackoff, base * 2 ^ attempt)` (such a schedule needs
`base < maxBackoff`, which forces the first two delays to differ). -/
theorem retryDelay_not_min_exponential :
    ¬ ∃ base maxBackoff : Nat, base < maxBackoff ∧
        ∀ n, retryDelayMs n = min maxBackoff (base * 2 ^ n) := by
  rintro ⟨base, maxB, hlt, h⟩
  have h0 := h 0
  have h1 := h 1
  simp [retryDelayMs, pow_zero, pow_one, mul_one] at h0 h1
  omega

/-- C3 amended: on a `failed` or `disconnected` connection state the
handler schedules a retry at a fixed 2000 ms delay (2000 ms for every
consecutive failure — there is no attempt counter and the delay never
increases); on `connected` no retry is scheduled; when the timer fires
with the participant still tracked, the retry closes the connection and
creates a fresh one. -/
theorem retry_schedule_constant_2000 :
    (∀ n, retryDelayMs n = 2000) ∧
    retryDelayMsOnStateChange .failed = some 2000 ∧
    retryDelayMsOnStateChange .disconnected = some 2000 ∧
    retryDelayMsOnStateChange .connected = none ∧
    (∀ st id uname, (lookupConn st.peerConnections id).isSome = true →
      retryFire id uname st =
        createPeerConnection id uname (closePeerConnection id st)) := by
  refine ⟨fun n => rfl, by decide, by decide, by decide, ?_⟩
  intro st id uname h
  simp [retryFire, h]

/-- Witness for C3's amended theorem at a concrete tracked connection. -/
theorem retry_schedule_constant_2000_witness :
    retryFire "b" "bob" stOfferedToB =
      createPeerConnection "b" "bob" (closePeerConnection "b" stOfferedToB) :=
  retry_schedule_constant_2000.2.2.2.2 stOfferedToB "b" "bob" (by decide)

/-! ## Per-operation helper lemmas -/

theorem sendSignal_peerConnections (t : String) (k : SignalKind) (d : Nat)
    (st : RoomState) :
    (sendSignal t k d st).peerConnections = st.peerConnections := by
  cases htr : st.transportOk <;> simp [sendSignal, htr, appendLog]

theorem sendSignal_selfId (t : String) (k : SignalKind) (d : Nat)
    (st : RoomState) :
    (sendSignal t k d st).selfId = st.selfId := by
  cases htr : st.transportOk <;> simp [sendSignal, htr, appendLog]

theorem sendSignal_localStream (t : String) (k : SignalKind) (d : Nat)
    (st : RoomState) :
    (sendSignal t k d st).localStream = st.localStream := by
  cases htr : st.transportOk <;> simp [sendSignal, htr, appendLog]

theorem createPeerConnection_eq (id u : String) (st : RoomState)
    (h : st.localStream.isNone = false) :
    createPeerConnection id u st =
      sendSignal id .offer 0
        { st with peerConnections := setConn st.peerConnections id offeredConn } := by
  simp [createPeerConnection, h, RTCPeer.setLocalDescription, freshRTCPeer, offeredConn]

/-! ## C1 — inbound ICE candidates (corrected) -/

/-- Counterexample for C1: with `"a"`'s connection to `"b"` still waiting
for a remote description, a candidate from `"b"` arrives, and then the
remote answer is applied.  The remote description ends up set, yet the
applied-candidate list is empty — the early candidate was dropped, not
buffered and flushed. -/
theorem ice_candidate_before_remote_description_dropped :
    (lookupConn stIceAfterAnswer.peerConnections "b").map
      (fun c => c.peerConnection.remoteDescription.isSome) = some true ∧
    (lookupConn stIceAfterAnswer.peerConnections "b").map
      (fun c => c.peerConnection.appliedCandidates) = some [] ∧
    ¬ (lookupConn stIceAfterAnswer.peerConnections "b").map
        (fun c => c.peerConnection.appliedCandidates) = some [42] := by
  decide

/-- C1 amended: an inbound ICE candidate for a tracked connection is
applied (appended in receipt order) only when the remote description is
already set; a candidate arriving before that is dropped — the only state
change is the console log, so nothing buffers it and nothing is ever
flushed. -/
theorem handleIceCandidate_applies_only_after_remote_description
    (p : String) (c : Nat) (st : RoomState) (conn : PeerConn)
    (h : lookupConn st.peerConnections p = some conn) :
    (conn.peerConnection.remoteDescription = none →
      handleIceCandidate p c st = appendLog st (.handlingIceCandidate p)) ∧
    (conn.peerConnection.remoteDescription.isSome = true →
      handleIceCandidate p c st =
        { appendLog st (.handlingIceCandidate p) with
          peerConnections := setConn st.peerConnections p
            ⟨conn.peerConnection.addIceCandidate c, conn.stream⟩ }) := by
  constructor
  · intro hrd
    simp [handleIceCandidate, appendLog, h, hrd]
  · intro hrd
    simp [handleIceCandidate, appendLog, h, hrd]

/-- Witness for C1's amended theorem: a candidate before the remote
description only logs; a candidate after it is appended. -/
theorem handleIceCandidate_applies_only_after_remote_description_witness :
    handleIceCandidate "b" 42 stOfferedToB =
      appendLog stOfferedToB (.handlingIceCandidate "b") ∧
    handleIceCandidate "b" 43 stIceAfterAnswer =
      { appendLog stIceAfterAnswer (.handlingIceCandidate "b") with
        peerConnections := setConn stIceAfterAnswer.peerConnections "b"
          ⟨RTCPeer.addIceCandidate
            ⟨.stable, some ⟨.offer, 0⟩, some ⟨.answer, 7⟩, []⟩ 43, none⟩ } :=
  ⟨(handleIceCandidate_applies_only_after_remote_description "b" 42 stOfferedToB
      ⟨⟨.haveLocalOffer, some ⟨.offer, 0⟩, none, []⟩, none⟩ (by decide)).1 (by decide),
   (handleIceCandidate_applies_only_after_remote_description "b" 43 stIceAfterAnswer
      ⟨⟨.stable, some ⟨.offer, 0⟩, some ⟨.answer, 7⟩, []⟩, none⟩ (by decide)).2 (by decide)⟩

/-! ## C2 — glare (corrected) -/

/-- Counterexample for C2: `"a"` (the lexicographically smaller id) has
its own offer out to `"b"` when `"b"`'s offer arrives.  The claim says
`"a"` rolls its offer back and answers; the code instead hits the engine
rejection, logs it, keeps its local offer, and sends nothing — the only
envelope ever sent is `"a"`'s original offer. -/
theorem glare_small_id_sends_no_answer :
    ("a" : String) < "b" ∧
    stGlareA.sentSignals.map (fun e => e.signalType) = [.offer] ∧
    (lookupConn stGlareA.peerConnections "b").map
      (fun c => c.peerConnection.signalingState) = some .haveLocalOffer ∧
    .offerHandlingError ∈ stGlareA.logs := by
  refine ⟨?_, by decide, by decide, by decide⟩
  rw [String.lt_iff_toList_lt]
  decide

/-- C2 amended: an incoming Offer is handled with no participant-id
comparison at all; whenever the local connection already holds its own
local offer (glare), setting the remote offer is rejected by the engine,
the error is logged, no rollback happens, no answer is sent, and the
connection map is unchanged — on either side, whatever the id order. -/
theorem handleOffer_glare_no_answer_no_rollback
    (p : String) (x : Nat) (st : RoomState) (conn : PeerConn)
    (hs : st.localStream.isNone = false)
    (h : lookupConn st.peerConnections p = some conn)
    (hg : conn.peerConnection.signalingState = .haveLocalOffer) :
    handleOffer p x st =
      appendLog (appendLog st (.handlingOffer p)) .offerHandlingError := by
  simp [handleOffer, hs, appendLog, h, RTCPeer.setRemoteDescription, hg]

/-- Witness for C2's amended theorem at the concrete glare state. -/
theorem handleOffer_glare_no_answer_no_rollback_witness :
    handleOffer "b" 5 stOfferedToB =
      appendLog (appendLog stOfferedToB (.handlingOffer "b")) .offerHandlingError :=
  handleOffer_glare_no_answer_no_rollback "b" 5 stOfferedToB
    ⟨⟨.haveLocalOffer, some ⟨.offer, 0⟩, none, []⟩, none⟩
    (by decide) (by decide) (by decide)

/-! ## C5 — closed connections (corrected) -/

/-- Counterexample for C5: after `closePeerConnection("b")` removes the
map entry, an offer from `"b"` recreates a connection for `"b"` and is
answered — the Closed state is not terminal for offers. -/
theorem closed_connection_recreated_by_offer :
    lookupConn stClosedB.peerConnections "b" = none ∧
    (lookupConn stReopenedB.peerConnections "b").isSome = true ∧
    stReopenedB.sentSignals =
      [⟨"a", "b", .offer, 0⟩, ⟨"a", "b", .answer, 0⟩] := by
  decide

/-- C5 amended: after a participant's connection is removed, answer and
ice-candidate envelopes from it are dropped with only a log appended, but
an offer envelope recreates a tracked connection for it and (transport
permitting) is answered. -/
theorem closed_connection_envelopes
    (p : String) (x c : Nat) (st : RoomState)
    (h : lookupConn st.peerConnections p = none) :
    handleAnswer p x st = appendLog st (.handlingAnswer p) ∧
    handleIceCandidate p c st = appendLog st (.handlingIceCandidate p) ∧
    (st.localStream.isNone = false →
      (lookupConn (handleOffer p x st).peerConnections p).isSome = true ∧
      (st.transportOk = true →
        (handleOffer p x st).sentSignals =
          st.sentSignals ++ [⟨st.selfId, p, .answer, 0⟩])) := by
  refine ⟨?_, ?_, ?_⟩
  · simp [handleAnswer, appendLog, h]
  · simp [handleIceCandidate, appendLog, h]
  · intro hs
    cases htr : st.transportOk with
    | false =>
      refine ⟨?_, by intro hcontra; simp [htr] at hcontra⟩
      simp [handleOffer, hs, appendLog, h, RTCPeer.setRemoteDescription,
        RTCPeer.createAnswer, RTCPeer.setLocalDescription, freshRTCPeer,
        sendSignal, htr, lookupConn_setConn]
    | true =>
      constructor
      · simp [handleOffer, hs, appendLog, h, RTCPeer.setRemoteDescription,
          RTCPeer.createAnswer, RTCPeer.setLocalDescription, freshRTCPeer,
          sendSignal, htr, lookupConn_setConn]
      · intro _
        simp [handleOffer, hs, appendLog, h, RTCPeer.setRemoteDescription,
          RTCPeer.createAnswer, RTCPeer.setLocalDescription, freshRTCPeer,
          sendSignal, htr]

/-- Witness for C5's amended theorem at the concrete removed-participant
state. -/
theorem closed_connection_envelopes_witness :
    handleAnswer "b" 9 stClosedB = appendLog stClosedB (.handlingAnswer "b") ∧
    (lookupConn (handleOffer "b" 5 stClosedB).peerConnections "b").isSome = true := by
  have h := closed_connection_envelopes "b" 9 3 stClosedB (by decide)
  exact ⟨h.1, (h.2.2 (by decide)).1⟩

/-! ## C10 — unconditional offer on creation -/

/-- C10: `createPeerConnection` always ends by sending exactly one offer
envelope to the given participant — no initiator tie-break of any kind —
and consequently when two participants discover each other, both sides
send an offer to the other. -/
theorem createPeerConnection_always_offers :
    (∀ st id uname, st.localStream.isSome = true → st.transportOk = true →
      (createPeerConnection id uname st).sentSignals =
        st.sentSignals ++ [⟨st.selfId, id, .offer, 0⟩]) ∧
    (∀ a b : String, a ≠ b →
      (⟨a, b, .offer, 0⟩ : SignalEnvelope) ∈
        (reconcile [⟨a, a, a, true⟩, ⟨b, b, b, true⟩] (initialRoomState a)).sentSignals ∧
      (⟨b, a, .offer, 0⟩ : SignalEnvelope) ∈
        (reconcile [⟨a, a, a, true⟩, ⟨b, b, b, true⟩] (initialRoomState b)).sentSignals) := by
  constructor
  · intro st id uname h ht
    obtain ⟨ls, hls⟩ := Option.isSome_iff_exists.mp h
    simp [createPeerConnection, hls, RTCPeer.setLocalDescription, freshRTCPeer,
      sendSignal, ht]
  · intro a b hab
    have hba : b ≠ a := Ne.symm hab
    constructor
    · simp [reconcile, reconcileCreate, reconcileRemove, initialRoomState,
        createPeerConnection, RTCPeer.setLocalDescription, freshRTCPeer,
        sendSignal, setConn, connKeys, lookupConn, hab, hba]
    · simp [reconcile, reconcileCreate, reconcileRemove, initialRoomState,
        createPeerConnection, RTCPeer.setLocalDescription, freshRTCPeer,
        sendSignal, setConn, connKeys, lookupConn, hab, hba]

/-- Witness for C10 at concrete states and ids. -/
theorem createPeerConnection_always_offers_witness :
    (createPeerConnection "b" "bob" (initialRoomState "a")).sentSignals =
      [⟨"a", "b", .offer, 0⟩] ∧
    (⟨"a", "b", .offer, 0⟩ : SignalEnvelope) ∈
      (reconcile [⟨"a", "a", "a", true⟩, ⟨"b", "b", "b", true⟩]
        (initialRoomState "a")).sentSignals ∧
    (⟨"b", "a", .offer, 0⟩ : SignalEnvelope) ∈
      (reconcile [⟨"a", "a", "a", true⟩, ⟨"b", "b", "b", true⟩]
        (initialRoomState "b")).sentSignals := by
  have h1 := createPeerConnection_always_offers.1 (initialRoomState "a") "b" "bob"
    (by decide) (by decide)
  have h2 := createPeerConnection_always_offers.2 "a" "b" (by decide)
  exact ⟨by simpa using h1, h2.1, h2.2⟩

/-! ## C4 — reconcile helper lemmas -/

theorem createPeerConnection_selfId (id u : String) (st : RoomState) :
    (createPeerConnection id u st).selfId = st.selfId := by
  by_cases h : st.localStream.isNone = false
  · rw [createPeerConnection_eq id u st h, sendSignal_selfId]
  · have h2 : st.localStream.isNone = true := by
      cases hb : st.localStream.isNone
      · exact absurd hb h
      · rfl
    simp [createPeerConnection, h2]

theorem createPeerConnection_localStream (id u : String) (st : RoomState) :
    (createPeerConnection id u st).localStream = st.localStream := by
  by_cases h : st.localStream.isNone = false
  · rw [createPeerConnection_eq id u st h, sendSignal_localStream]
  · have h2 : st.localStream.isNone = true := by
      cases hb : st.localStream.isNone
      · exact absurd hb h
      · rfl
    simp [createPeerConnection, h2]

theorem lookupConn_createPeerConnection (id u q : String) (st : RoomState)
    (h : st.localStream.isNone = false) :
    lookupConn (createPeerConnection id u st).peerConnections q =
      if id = q then some offeredConn else lookupConn st.peerConnections q := by
  rw [createPeerConnection_eq id u st h, sendSignal_peerConnections]
  exact lookupConn_setConn st.peerConnections id q offeredConn

theorem connKeys_createPeerConnection (id u : String) (st : RoomState)
    (h : st.localStream.isNone = false) :
    connKeys (createPeerConnection id u st).peerConnections =
      if (lookupConn st.peerConnections id).isSome = true
        then connKeys st.peerConnections
        else connKeys st.peerConnections ++ [id] := by
  rw [createPeerConnection_eq id u st h, sendSignal_peerConnections]
  exact connKeys_setConn st.peerConnections id offeredConn

theorem closePeerConnection_selfId (k : String) (st : RoomState) :
    (closePeerConnection k st).selfId = st.selfId := by
  unfold closePeerConnection
  cases h : lookupConn st.peerConnections k <;> rfl

theorem closePeerConnection_localStream (k : String) (st : RoomState) :
    (closePeerConnection k st).localStream = st.localStream := by
  unfold closePeerConnection
  cases h : lookupConn st.peerConnections k <;> rfl

theorem connKeys_closePeerConnection_sublist (k : String) (st : RoomState) :
    List.Sublist (connKeys (closePeerConnection k st).peerConnections)
      (connKeys st.peerConnections) := by
  unfold closePeerConnection
  cases h : lookupConn st.peerConnections k with
  | none => exact List.Sublist.refl _
  | some c => exact connKeys_eraseConn_sublist st.peerConnections k

theorem reconcileCreate_char (parts : List Participant) :
    ∀ st : RoomState, st.localStream.isNone = false →
      (reconcileCreate parts st).selfId = st.selfId ∧
      (reconcileCreate parts st).localStream = st.localStream ∧
      (∀ q, lookupConn (reconcileCreate parts st).peerConnections q =
        if q ≠ st.selfId ∧ lookupConn st.peerConnections q = none ∧
            q ∈ parts.map (fun p => p.user_id)
          then some offeredConn else lookupConn st.peerConnections q) ∧
      ((connKeys st.peerConnections).Nodup →
        (connKeys (reconcileCreate parts st).peerConnections).Nodup) := by
  induction parts with
  | nil =>
    intro st _
    refine ⟨rfl, rfl, ?_, fun hn => hn⟩
    intro q
    simp [reconcileCreate]
  | cons p rest ih =>
    intro st h
    have step : reconcileCreate (p :: rest) st =
        reconcileCreate rest
          (if p.user_id ≠ st.selfId ∧ lookupConn st.peerConnections p.user_id = none
            then createPeerConnection p.user_id p.username st else st) := rfl
    by_cases hc : p.user_id ≠ st.selfId ∧ lookupConn st.peerConnections p.user_id = none
    · -- this step creates a connection for p
      rw [step, if_pos hc]
      set s1 := createPeerConnection p.user_id p.username st with hs1
      have hself1 : s1.selfId = st.selfId := createPeerConnection_selfId _ _ _
      have hls1 : s1.localStream = st.localStream := createPeerConnection_localStream _ _ _
      have hlk1 : ∀ q, lookupConn s1.peerConnections q =
          if p.user_id = q then some offeredConn else lookupConn st.peerConnections q :=
        fun q => lookupConn_createPeerConnection _ _ _ _ h
      have h1 : s1.localStream.isNone = false := by rw [hls1]; exact h
      obtain ⟨ihself, ihls, ihlk, ihnd⟩ := ih s1 h1
      refine ⟨by rw [ihself, hself1], by rw [ihls, hls1], ?_, ?_⟩
      · intro q
        rw [ihlk q, hself1, hlk1 q]
        by_cases hpq : p.user_id = q
        · subst hpq
          have hnotnone : ¬ (some offeredConn = none) := by simp
          rw [if_neg (fun hand => hnotnone (by simpa using hand.2.1)), if_pos rfl,
            if_pos ⟨hc.1, hc.2, by simp⟩]
        · rw [if_neg hpq]
          have hmem : (q ∈ (p :: rest).map (fun p => p.user_id)) ↔
              (q ∈ rest.map (fun p => p.user_id)) := by
            simp [List.mem_cons]
            intro hq
            exact absurd hq.symm hpq
          by_cases hcond : q ≠ st.selfId ∧ lookupConn st.peerConnections q = none ∧
              q ∈ rest.map (fun p => p.user_id)
          · rw [if_pos hcond, if_pos ⟨hcond.1, hcond.2.1, hmem.mpr hcond.2.2⟩]
          · rw [if_neg hcond, if_neg (fun hand => hcond ⟨hand.1, hand.2.1, hmem.mp hand.2.2⟩)]
      · intro hnd
        apply ihnd
        have hkeys : connKeys s1.peerConnections =
            connKeys st.peerConnections ++ [p.user_id] := by
          rw [hs1, connKeys_createPeerConnection _ _ _ h, hc.2]
          simp
        rw [hkeys]
        have hnotmem : p.user_id ∉ connKeys st.peerConnections := by
          rw [mem_connKeys_iff, hc.2]
          simp
        simp [List.nodup_append, hnd, hnotmem]
    · -- this step skips p
      rw [step, if_neg hc]
      obtain ⟨ihself, ihls, ihlk, ihnd⟩ := ih st h
      refine ⟨ihself, ihls, ?_, ihnd⟩
      intro q
      rw [ihlk q]
      by_cases hpq : p.user_id = q
      · subst hpq
        have hmem2 : ¬ (p.user_id ≠ st.selfId ∧
            lookupConn st.peerConnections p.user_id = none ∧
            p.user_id ∈ (p :: rest).map (fun p => p.user_id)) :=
          fun hand => hc ⟨hand.1, hand.2.1⟩
        by_cases hcond : p.user_id ≠ st.selfId ∧
            lookupConn st.peerConnections p.user_id = none ∧
            p.user_id ∈ rest.map (fun pp => pp.user_id)
        · exact absurd ⟨hcond.1, hcond.2.1, by simp⟩ hmem2
        · rw [if_neg hcond, if_neg hmem2]
      · have hmem : (q ∈ (p :: rest).map (fun p => p.user_id)) ↔
            (q ∈ rest.map (fun p => p.user_id)) := by
          simp [List.mem_cons]
          intro hq
          exact absurd hq.symm hpq
        by_cases hcond : q ≠ st.selfId ∧ lookupConn st.peerConnections q = none ∧
            q ∈ rest.map (fun pp => pp.user_id)
        · rw [if_pos hcond, if_pos ⟨hcond.1, hcond.2.1, hmem.mpr hcond.2.2⟩]
        · rw [if_neg hcond, if_neg (fun hand => hcond ⟨hand.1, hand.2.1, hmem.mp hand.2.2⟩)]

theorem reconcileRemove_eq_closeAbsent (parts : List Participant)
    (st : RoomState) :
    reconcileRemove parts st =
      closeAbsent (parts.map (fun p => p.user_id))
        (connKeys st.peerConnections) st := rfl

theorem closeAbsent_char (ids : List String) (L : List String) :
    ∀ st : RoomState,
      (closeAbsent ids L st).selfId = st.selfId ∧
      (closeAbsent ids L st).localStream = st.localStream ∧
      (∀ q, lookupConn (closeAbsent ids L st).peerConnections q =
        if q ∈ L ∧ q ≠ st.selfId ∧ q ∉ ids then none
        else lookupConn st.peerConnections q) ∧
      ((connKeys st.peerConnections).Nodup →
        (connKeys (closeAbsent ids L st).peerConnections).Nodup) := by
  induction L with
  | nil =>
    intro st
    refine ⟨rfl, rfl, ?_, fun hn => hn⟩
    intro q
    simp [closeAbsent]
  | cons k L' ih =>
    intro st
    have step : closeAbsent ids (k :: L') st =
        closeAbsent ids L'
          (if k ≠ st.selfId ∧ k ∉ ids then closePeerConnection k st else st) := rfl
    by_cases hck : k ≠ st.selfId ∧ k ∉ ids
    · rw [step, if_pos hck]
      set s1 := closePeerConnection k st with hs1
      have hself1 : s1.selfId = st.selfId := closePeerConnection_selfId _ _
      have hls1 : s1.localStream = st.localStream := closePeerConnection_localStream _ _
      obtain ⟨ihself, ihls, ihlk, ihnd⟩ := ih s1
      refine ⟨by rw [ihself, hself1], by rw [ihls, hls1], ?_, ?_⟩
      · intro q
        rw [ihlk q, hself1]
        by_cases hkq : k = q
        · subst hkq
          have hnone : lookupConn s1.peerConnections k = none := by
            rw [hs1, lookupConn_closePeerConnection]
            simp
          rw [hnone, ite_self, if_pos ⟨by simp, hck.1, hck.2⟩]
        · have hlk : lookupConn s1.peerConnections q =
              lookupConn st.peerConnections q := by
            rw [hs1, lookupConn_closePeerConnection, if_neg hkq]
          rw [hlk]
          have hmem : (q ∈ k :: L') ↔ (q ∈ L') := by
            simp [List.mem_cons]
            intro hq
            exact absurd hq.symm hkq
          by_cases hcond : q ∈ L' ∧ q ≠ st.selfId ∧ q ∉ ids
          · rw [if_pos hcond, if_pos ⟨hmem.mpr hcond.1, hcond.2⟩]
          · rw [if_neg hcond, if_neg (fun hand => hcond ⟨hmem.mp hand.1, hand.2⟩)]
      · intro hnd
        exact ihnd ((connKeys_closePeerConnection_sublist k st).nodup hnd)
    · rw [step, if_neg hck]
      obtain ⟨ihself, ihls, ihlk, ihnd⟩ := ih st
      refine ⟨ihself, ihls, ?_, ihnd⟩
      intro q
      rw [ihlk q]
      by_cases hkq : k = q
      · subst hkq
        have hno : ¬ (k ∈ k :: L' ∧ k ≠ st.selfId ∧ k ∉ ids) :=
          fun hand => hck hand.2
        by_cases hcond : k ∈ L' ∧ k ≠ st.selfId ∧ k ∉ ids
        · exact absurd hcond.2 hck
        · rw [if_neg hcond, if_neg hno]
      · have hmem : (q ∈ k :: L') ↔ (q ∈ L') := by
          simp [List.mem_cons]
          intro hq
          exact absurd hq.symm hkq
        by_cases hcond : q ∈ L' ∧ q ≠ st.selfId ∧ q ∉ ids
        · rw [if_pos hcond, if_pos ⟨hmem.mpr hcond.1, hcond.2⟩]
        · rw [if_neg hcond, if_neg (fun hand => hcond ⟨hmem.mp hand.1, hand.2⟩)]

theorem reconcile_char (parts : List Participant) (st : RoomState)
    (h : st.localStream.isNone = false)
    (hself : lookupConn st.peerConnections st.selfId = none)
    (hnodup : (connKeys st.peerConnections).Nodup) :
    (reconcile parts st).selfId = st.selfId ∧
    (reconcile parts st).localStream = st.localStream ∧
    (connKeys (reconcile parts st).peerConnections).Nodup ∧
    (∀ q, (lookupConn (reconcile parts st).peerConnections q).isSome = true ↔
      (q ≠ st.selfId ∧ q ∈ parts.map (fun p => p.user_id))) ∧
    (∀ q v, lookupConn st.peerConnections q = some v →
      q ∈ parts.map (fun p => p.user_id) →
      lookupConn (reconcile parts st).peerConnections q = some v) := by
  have hre : reconcile parts st = reconcileRemove parts (reconcileCreate parts st) := by
    simp [reconcile, h]
  obtain ⟨c_self, c_ls, c_lk, c_nd⟩ := reconcileCreate_char parts st h
  have hrm : reconcileRemove parts (reconcileCreate parts st) =
      closeAbsent (parts.map (fun p => p.user_id))
        (connKeys (reconcileCreate parts st).peerConnections)
        (reconcileCreate parts st) :=
    reconcileRemove_eq_closeAbsent parts (reconcileCreate parts st)
  obtain ⟨r_self, r_ls, r_lk, r_nd⟩ :=
    closeAbsent_char (parts.map (fun p => p.user_id))
      (connKeys (reconcileCreate parts st).peerConnections)
      (reconcileCreate parts st)
  have hfin : ∀ q, lookupConn (reconcile parts st).peerConnections q =
      if q ∈ connKeys (reconcileCreate parts st).peerConnections ∧
          q ≠ st.selfId ∧ q ∉ parts.map (fun p => p.user_id)
        then none
        else lookupConn (reconcileCreate parts st).peerConnections q := by
    intro q
    rw [hre, hrm, r_lk q, c_self]
  refine ⟨?_, ?_, ?_, ?_, ?_⟩
  · rw [hre, hrm, r_self, c_self]
  · rw [hre, hrm, r_ls, c_ls]
  · rw [hre, hrm]
    exact r_nd (c_nd hnodup)
  · intro q
    by_cases hqs : q = st.selfId
    · subst hqs
      have h1 : lookupConn (reconcile parts st).peerConnections st.selfId = none := by
        rw [hfin st.selfId, if_neg (fun hand => hand.2.1 rfl), c_lk st.selfId,
          if_neg (fun hand => hand.1 rfl)]
        exact hself
      simp [h1]
    · by_cases hqi : q ∈ parts.map (fun p => p.user_id)
      · have h1 : (lookupConn (reconcile parts st).peerConnections q).isSome = true := by
          rw [hfin q, if_neg (fun hand => hand.2.2 hqi), c_lk q]
          cases hstq : lookupConn st.peerConnections q with
          | none => rw [if_pos ⟨hqs, rfl, hqi⟩]; rfl
          | some v =>
            rw [if_neg (fun hand => Option.noConfusion hand.2.1)]
            rfl
        simp [h1, hqs, hqi]
      · have h1 : lookupConn (reconcile parts st).peerConnections q = none := by
          rw [hfin q]
          by_cases hqk : q ∈ connKeys (reconcileCreate parts st).peerConnections
          · rw [if_pos ⟨hqk, hqs, hqi⟩]
          · rw [if_neg (fun hand => hqk hand.1)]
            have h2 : (lookupConn (reconcileCreate parts st).peerConnections q).isSome ≠ true :=
              fun hiss => hqk ((mem_connKeys_iff _ _).mpr hiss)
            cases h3 : lookupConn (reconcileCreate parts st).peerConnections q with
            | none => rfl
            | some v => rw [h3] at h2; exact absurd rfl h2
        simp [h1, hqi]
  · intro q v hqv hqi
    have hqs : q ≠ st.selfId := by
      intro he
      rw [he, hself] at hqv
      exact Option.noConfusion hqv
    rw [hfin q, if_neg (fun hand => hand.2.2 hqi), c_lk q,
      if_neg (fun hand => by rw [hqv] at hand; exact Option.noConfusion hand.2.1)]
    exact hqv

theorem runReconciles_invariant (deltas : List (List Participant)) :
    ∀ st : RoomState, st.localStream.isNone = false →
      lookupConn st.peerConnections st.selfId = none →
      (connKeys st.peerConnections).Nodup →
      (runReconciles st deltas).selfId = st.selfId ∧
      (runReconciles st deltas).localStream = st.localStream ∧
      lookupConn (runReconciles st deltas).peerConnections st.selfId = none ∧
      (connKeys (runReconciles st deltas).peerConnections).Nodup := by
  induction deltas with
  | nil =>
    intro st _ h2 h3
    exact ⟨rfl, rfl, h2, h3⟩
  | cons d ds ih =>
    intro st h1 h2 h3
    obtain ⟨rself, rls, rnd, riff, _⟩ := reconcile_char d st h1 h2 h3
    have h1' : (reconcile d st).localStream.isNone = false := by
      rw [rls]; exact h1
    have h2' : lookupConn (reconcile d st).peerConnections (reconcile d st).selfId = none := by
      rw [rself]
      cases hl : lookupConn (reconcile d st).peerConnections st.selfId with
      | none => rfl
      | some v =>
        have h4 := (riff st.selfId).mp (by rw [hl]; rfl)
        exact absurd rfl h4.1
    have step : runReconciles st (d :: ds) = runReconciles (reconcile d st) ds := rfl
    obtain ⟨i1, i2, i3, i4⟩ := ih (reconcile d st) h1' h2' rnd
    refine ⟨?_, ?_, ?_, ?_⟩
    · rw [step, i1, rself]
    · rw [step, i2, rls]
    · rw [step]
      rw [rself] at i3
      exact i3
    · rw [step]
      exact i4

/-! ## C4 — reconcile tracks exactly the present non-self participants -/

/-- C4: starting from an empty connection map with local media present,
after any sequence of membership deltas followed by one more reconcile the
connection map has no duplicate keys and holds an entry for exactly the
non-self user ids of the last delta; moreover an id already tracked and
still present keeps its exact stored connection object (it is never
created a second time). -/
theorem reconcile_tracks_exactly_present
    (st0 : RoomState) (deltas : List (List Participant))
    (parts : List Participant)
    (hconn : st0.peerConnections = []) (hls : st0.localStream.isNone = false) :
    (connKeys (reconcile parts (runReconciles st0 deltas)).peerConnections).Nodup ∧
    (∀ q, q ∈ connKeys (reconcile parts (runReconciles st0 deltas)).peerConnections ↔
      (q ≠ st0.selfId ∧ q ∈ parts.map (fun p => p.user_id))) ∧
    (∀ q v, lookupConn (runReconciles st0 deltas).peerConnections q = some v →
      q ∈ parts.map (fun p => p.user_id) →
      lookupConn (reconcile parts (runReconciles st0 deltas)).peerConnections q = some v) := by
  have hself0 : lookupConn st0.peerConnections st0.selfId = none := by
    rw [hconn]; rfl
  have hnd0 : (connKeys st0.peerConnections).Nodup := by
    rw [hconn]; exact List.nodup_nil
  obtain ⟨i1, i2, i3, i4⟩ := runReconciles_invariant deltas st0 hls hself0 hnd0
  have h1' : (runReconciles st0 deltas).localStream.isNone = false := by
    rw [i2]; exact hls
  have h2' : lookupConn (runReconciles st0 deltas).peerConnections
      (runReconciles st0 deltas).selfId = none := by
    rw [i1]; exact i3
  obtain ⟨rself, rls, rnd, riff, rpres⟩ :=
    reconcile_char parts (runReconciles st0 deltas) h1' h2' i4
  refine ⟨rnd, ?_, ?_⟩
  · intro q
    rw [mem_connKeys_iff, riff q, i1]
  · intro q v hqv hqi
    exact rpres q v hqv hqi

/-- Witness for C4: `"a"` sees `"b"` join, then a delta with `"b"` and
`"c"`. -/
theorem reconcile_tracks_exactly_present_witness :
    (connKeys (reconcile [⟨"b", "b", "b", true⟩, ⟨"c", "c", "c", true⟩]
      (runReconciles (initialRoomState "a")
        [[⟨"b", "b", "b", true⟩]])).peerConnections).Nodup ∧
    (∀ q, q ∈ connKeys (reconcile [⟨"b", "b", "b", true⟩, ⟨"c", "c", "c", true⟩]
        (runReconciles (initialRoomState "a")
          [[⟨"b", "b", "b", true⟩]])).peerConnections ↔
      (q ≠ "a" ∧ q ∈ ([⟨"b", "b", "b", true⟩, ⟨"c", "c", "c", true⟩] :
          List Participant).map (fun p => p.user_id))) ∧
    (∀ q v, lookupConn (runReconciles (initialRoomState "a")
        [[⟨"b", "b", "b", true⟩]]).peerConnections q = some v →
      q ∈ ([⟨"b", "b", "b", true⟩, ⟨"c", "c", "c", true⟩] :
          List Participant).map (fun p => p.user_id) →
      lookupConn (reconcile [⟨"b", "b", "b", true⟩, ⟨"c", "c", "c", true⟩]
        (runReconciles (initialRoomState "a")
          [[⟨"b", "b", "b", true⟩]])).peerConnections q = some v) :=
  reconcile_tracks_exactly_present (initialRoomState "a")
    [[⟨"b", "b", "b", true⟩]] [⟨"b", "b", "b", true⟩, ⟨"c", "c", "c", true⟩]
    rfl rfl

end StudyRoom
